import Mathlib

/-!
Verification of the alkanes-forge staking-pool weight ledger and profit
calculation subsystem.

The Rust sources embedded here are:
* `forge-stake/src/lib.rs` — the `StakingPool` contract: `calc_profit`,
  `add_staking_position`, `process_unstake`, `get_staking_weight`,
  `get_staking_expire`, `get_next_staking_index`, `get_staking`.
* `crates/types-support/src/staking.rs` — the `Staking` record, its derived
  accessors (`get_expire_height`, `get_mining_end_height`,
  `get_release_end_height`) and its bincode (de)serialisation.
* `alkanes/staking_pool/src/lib.rs` — the reference calculator
  `calc_profit_1` (day-number based).

Modelling conventions:
* `rust_decimal::Decimal` values are modelled as exact rationals `ℚ`.
  Decimal is a 96-bit fixed-point type whose division rounds at the 28th
  significant digit and whose arithmetic panics on overflow; neither limit is
  reachable in the computations the claims are about, and none of the claims
  hinge on the final rounding digit, so exact rational arithmetic is the
  faithful shallow embedding.  Decimal's magnitude bound (< 2^96) is below
  `u128::MAX`, so `try_into::<u128>()` of a non-negative floored Decimal
  never overflows.
* Machine integers are `Nat`; the one place a width conversion matters to
  the claims (the `height as u64` cast at the top of both profit
  calculators) is made explicit with `% 2 ^ 64`.  `u64` subtractions in the
  source are modelled as truncated `Nat` subtraction; where a claim is about
  the absence of such an underflow this is proved, not assumed.
* The contract's key-value store is modelled semantically: the per-index
  position records and the two per-height ledger series
  (`/staking_weight/`, `/staking_expire/`) are functions with `Option`
  capturing key absence.  A `none` entry covers both an absent key and an
  undecodable value, matching the `unwrap_or`-style reads of the source.
* Rust panics that the source can actually reach (Decimal division by zero,
  `checked_*().unwrap()`, `try_into().unwrap()`) abort the host invocation;
  they are modelled as explicit `Except.error` results.
-/

namespace ForgeStake

/-- `MINING_ONE_BLOCK_VOLUME` (forge-stake): reward emitted per block. -/
def MINING_ONE_BLOCK_VOLUME : Nat := 1003086419753

/-- `MINING_FIRST_HEIGHT`: first mining block height. -/
def MINING_FIRST_HEIGHT : Nat := 450

/-- `MINING_LAST_HEIGHT`: last mining block height. -/
def MINING_LAST_HEIGHT : Nat := MINING_FIRST_HEIGHT + 144 * 360 - 1

/-- `MIN_STAKE_VALUE`. -/
def MIN_STAKE_VALUE : Nat := 1000

/-- `PROFIT_RELEASE_HEIGHT` (forge-stake): linear vesting window in blocks. -/
def PROFIT_RELEASE_HEIGHT : Nat := 144 * 180

/-- `MINING_ONE_DAY_VOLUME` (alkanes staking_pool): reward per 144-block day. -/
def MINING_ONE_DAY_VOLUME : Nat := 144444444444444

/-- `PROFIT_RELEASE_DAY` (alkanes staking_pool): vesting window in days. -/
def PROFIT_RELEASE_DAY : Nat := 180

/-- Modulus of the `u64` machine type. -/
def U64_MOD : Nat := 2 ^ 64

/-- Largest value of the `u128` machine type. -/
def U128_MAX : Nat := 2 ^ 128 - 1

/-- `period_to_weight_multiplier` (forge-stake).  The Rust `match` on the
`u16` period returns the Decimal strings "1.0" / "1.5" / "1.8" / "2.2", any
other period falling back to the base multiplier "1.0"; rendered here as an
if-chain over the same literal cases. -/
def period_to_weight_multiplier (period : Nat) : ℚ :=
  if period = 30 then 1
  else if period = 90 then 3 / 2
  else if period = 180 then 9 / 5
  else if period = 360 then 11 / 5
  else 1

/-- `period_to_w` (alkanes staking_pool); same table as
`period_to_weight_multiplier`. -/
def period_to_w (period : Nat) : ℚ :=
  if period = 30 then 1
  else if period = 90 then 3 / 2
  else if period = 180 then 9 / 5
  else if period = 360 then 11 / 5
  else 1

/-- The `Staking` record (`crates/types-support/src/staking.rs`), fields in
declaration order.  `tx` is the raw 32-byte array, `alkanes_id` the
`[u128;2]` pair. -/
structure Staking where
  brc20_index : Nat
  brc20_value : Nat
  staking_value : Nat
  period : Nat
  tx : List Nat
  invite_index : Nat
  staking_height : Nat
  unstaking_height : Nat
  alkanes_id : Nat × Nat
  withdraw_coin_value : Nat
deriving DecidableEq, Repr

/-- `Staking::default()`: all integer fields zero, `tx` the zero array. -/
def Staking.default : Staking :=
  ⟨0, 0, 0, 0, List.replicate 32 0, 0, 0, 0, (0, 0), 0⟩

/-- `Staking::get_expire_height`: `staking_height + period * 144`.  The `u64`
overflow of this addition is unreachable for validated stakes
(`staking_height ≤ MINING_LAST_HEIGHT`, `period < 2^16`) and is not
modelled. -/
def Staking.get_expire_height (s : Staking) : Nat :=
  s.staking_height + s.period * 144

/-- `Staking::get_mining_end_height`. -/
def Staking.get_mining_end_height (s : Staking) (height : Nat) : Nat :=
  if 0 < s.unstaking_height then
    min (min s.unstaking_height s.get_expire_height) height
  else
    min s.get_expire_height height

/-- `Staking::get_release_end_height`. -/
def Staking.get_release_end_height (s : Staking) (height : Nat) : Nat :=
  if 0 < s.unstaking_height then min s.unstaking_height height else height

/-- Pointwise update of a `Nat`-keyed store, mirroring a single
`StoragePointer::set`. -/
def updFun {β : Type} (f : Nat → β) (k : Nat) (v : β) : Nat → β :=
  fun x => if x = k then v else f x

/-- Pointwise update of the `(block, tx)`-keyed id-to-index store. -/
def updFun2 {β : Type} (f : Nat × Nat → β) (k : Nat × Nat) (v : β) :
    Nat × Nat → β :=
  fun x => if x = k then v else f x

/-- The staking pool's persistent state: the decoded view of its key-value
store.  `stakings i = none` covers the record being absent or undecodable
(the byte-level decoding itself is `descrialize` below); `weightSnap` and
`expireW` are the sparse `/staking_weight/` and `/staking_expire/` series,
with `none` for an absent key. -/
structure PoolState where
  stakings : Nat → Option Staking
  orbitalCount : Nat
  weightSnap : Nat → Option ℚ
  expireW : Nat → Option ℚ
  id2index : Nat × Nat → Nat
  inviteLists : Nat → List Nat

/-- The freshly initialised pool: every store empty. -/
def emptyPool : PoolState :=
  ⟨fun _ => none, 0, fun _ => none, fun _ => none, fun _ => 0, fun _ => []⟩

/-- `StakingPool::get_staking_expire`: absent key (or undecodable value)
reads as 0 (`unwrap_or(Decimal::from(0))`). -/
def get_staking_expire (exp : Nat → Option ℚ) (height : Nat) : ℚ :=
  (exp height).getD 0

/-- The backward walk of `StakingPool::get_staking_weight`
(`while current_height > MINING_FIRST_HEIGHT { current_height -= 1; ... }`),
written structurally on the current height: from `current + 1` the loop
decrements to `current`, adds a snapshot found there and stops, otherwise
subtracts that height's expire delta and continues. -/
def weight_walk (snap exp : Nat → Option ℚ) : Nat → ℚ → ℚ
  | 0, acc => acc
  | current + 1, acc =>
    if MINING_FIRST_HEIGHT < current + 1 then
      match snap current with
      | some w => acc + w
      | none => weight_walk snap exp current (acc - get_staking_expire exp current)
    else acc

/-- `StakingPool::get_staking_weight`: a snapshot stored at `height` is
returned directly, otherwise the accumulator starts at
`0 - expire[height]` and the backward walk runs. -/
def get_staking_weight (snap exp : Nat → Option ℚ) (height : Nat) : ℚ :=
  match snap height with
  | some w => w
  | none => weight_walk snap exp height (0 - get_staking_expire exp height)

/-- Total pool weight active at `height`, as queried on a pool state. -/
def PoolState.weightAt (s : PoolState) (height : Nat) : ℚ :=
  get_staking_weight s.weightSnap s.expireW height

/-- Expire delta stored at `height`, as queried on a pool state. -/
def PoolState.expireAt (s : PoolState) (height : Nat) : ℚ :=
  get_staking_expire s.expireW height

/-- `StakingPool::set_staking_weight`. -/
def set_staking_weight (s : PoolState) (height : Nat) (w : ℚ) : PoolState :=
  { s with weightSnap := updFun s.weightSnap height (some w) }

/-- `StakingPool::set_staking_expire`. -/
def set_staking_expire (s : PoolState) (height : Nat) (v : ℚ) : PoolState :=
  { s with expireW := updFun s.expireW height (some v) }

/-- `StakingPool::get_staking` (forge-stake):
`Staking::descrialize(&data).unwrap_or_default()` — an absent or
undecodable record reads as the default `Staking`. -/
def get_staking (s : PoolState) (index : Nat) : Staking :=
  (s.stakings index).getD Staking.default

/-- `StakingPool::get_next_staking_index` (forge-stake):
`get_orbital_count().checked_add(1).unwrap_or(1)` — on `u128` overflow the
result is 1, not an error. -/
def get_next_staking_index (s : PoolState) : Nat :=
  if s.orbitalCount + 1 ≤ U128_MAX then s.orbitalCount + 1 else 1

/-- `StakingPool::set_invite_relationship`: appends the new index to the
referee's invite list when `invite_index > 0`. -/
def set_invite_relationship (s : PoolState) (index invite_index : Nat) :
    PoolState :=
  if 0 < invite_index then
    { s with inviteLists :=
        updFun s.inviteLists invite_index (s.inviteLists invite_index ++ [index]) }
  else s

/-- `StakingPool::add_staking_position` (forge-stake): stores the record,
indexes it, registers the invite relation, pushes the position's weight
into the snapshot series at `staking_height` and the same quantity into the
expire series at `get_expire_height`, then sets the orbital counter to the
new index.  `Staking::serialize` of a well-formed record cannot fail, so the
`Result` wrapper of the source is dropped. -/
def add_staking_position (s : PoolState) (index : Nat) (staking : Staking) :
    PoolState :=
  let s1 := { s with stakings := updFun s.stakings index (some staking) }
  let s2 := { s1 with id2index := updFun2 s1.id2index staking.alkanes_id index }
  let s3 := set_invite_relationship s2 index staking.invite_index
  let staking_weight : ℚ :=
    (staking.staking_value : ℚ) * period_to_weight_multiplier staking.period
  let s4 := set_staking_weight s3 staking.staking_height
    (s3.weightAt staking.staking_height + staking_weight)
  let s5 := set_staking_expire s4 staking.get_expire_height
    (s4.expireAt staking.get_expire_height + staking_weight)
  { s5 with orbitalCount := index }

/-- Failure modes of the forge-stake operations modelled here:
`alreadyUnstaking` is `StakingPoolError::AlreadyUnstaking`;
`divisionByZero` models the `rust_decimal` division-by-zero panic inside
`calc_profit`, which aborts the invocation. -/
inductive ForgeErr where
  | alreadyUnstaking
  | divisionByZero
deriving DecidableEq, Repr

/-- `StakingPool::process_unstake` (forge-stake), with the current block
height `self.height()` passed explicitly.  The `AlreadyUnstaking` check
precedes every write. -/
def process_unstake (s : PoolState) (index : Nat) (height : Nat) :
    Except ForgeErr PoolState :=
  let staking := get_staking s index
  if 0 < staking.unstaking_height then .error .alreadyUnstaking
  else
    let staking2 := { staking with unstaking_height := height }
    let s1 := { s with stakings := updFun s.stakings index (some staking2) }
    if staking2.get_expire_height ≤ height then .ok s1
    else
      let staking_weight : ℚ :=
        (staking2.staking_value : ℚ) * period_to_weight_multiplier staking2.period
      let s2 := set_staking_weight s1 staking2.unstaking_height
        (s1.weightAt staking2.unstaking_height - staking_weight)
      let s3 := set_staking_expire s2 staking2.get_expire_height
        (s2.expireAt staking2.get_expire_height - staking_weight)
      .ok s3

/-- `total.floor().try_into::<u128>().unwrap_or(0)`: a negative floor fails
the conversion and yields 0 (`Int.toNat` clamps); the positive-overflow arm
of `try_into` is dead because Decimal's magnitude is below `u128::MAX`. -/
def decimalToU128 (q : ℚ) : Nat := ⌊q⌋.toNat

/-- The `while start_height < end_height` loop of `calc_profit`
(forge-stake), with `fuel = end_height - start_height` counting the
remaining iterations.  Each block divides `profit_factor` by the ledger
weight (a zero weight is the Decimal division panic), accumulates the block
profit, and accumulates the released part under the linear vesting rule
`blocks_until_release = release_end - h - 1`. -/
def profit_loop (snap exp : Nat → Option ℚ) (profit_factor release_rate : ℚ)
    (release_end : Nat) :
    Nat → Nat → ℚ → ℚ → Except ForgeErr (ℚ × ℚ)
  | 0, _, total_profit, total_released => .ok (total_profit, total_released)
  | fuel + 1, h, total_profit, total_released =>
    let wgt := get_staking_weight snap exp h
    if wgt = 0 then .error .divisionByZero
    else
      let block_profit := profit_factor / wgt
      let blocks_until_release := release_end - h - 1
      let released :=
        if PROFIT_RELEASE_HEIGHT ≤ blocks_until_release then block_profit
        else block_profit * release_rate * (blocks_until_release : ℚ)
      profit_loop snap exp profit_factor release_rate release_end fuel (h + 1)
        (total_profit + block_profit) (total_released + released)

/-- `StakingPool::calc_profit` (forge-stake).  The `height as u64` cast is
the explicit `% 2^64`.  Returns
`(floor(total_profit), floor(total_released), withdraw_coin_value)`. -/
def calc_profit (s : PoolState) (index : Nat) (height : Nat) :
    Except ForgeErr (Nat × Nat × Nat) :=
  let curr_staking := get_staking s index
  let h64 := height % U64_MOD
  let start_height := curr_staking.staking_height
  let end_height := curr_staking.get_mining_end_height h64
  let staking_weight : ℚ :=
    (curr_staking.staking_value : ℚ) * period_to_weight_multiplier curr_staking.period
  let release_rate : ℚ := 1 / (PROFIT_RELEASE_HEIGHT : ℚ)
  let profit_factor : ℚ := staking_weight * (MINING_ONE_BLOCK_VOLUME : ℚ)
  let release_end := curr_staking.get_release_end_height h64
  match profit_loop s.weightSnap s.expireW profit_factor release_rate release_end
      (end_height - start_height) start_height 0 0 with
  | .error e => .error e
  | .ok (total_profit, total_released) =>
    .ok (decimalToU128 total_profit, decimalToU128 total_released,
      curr_staking.withdraw_coin_value)

/-- Failure modes of the alkanes staking_pool reference calculator
`calc_profit_1`, each a panic that aborts the invocation:
`recordMissing` is the `Staking::descrialize(..).unwrap()` panic of that
crate's `get_staking` on an absent or undecodable record; `divByZero` the
`checked_div(..).unwrap()` panic; `subUnderflow` the
`checked_sub(..).unwrap()` panic; `intoFailure` the
`floor().try_into().unwrap()` panic on a negative value. -/
inductive AlkErr where
  | recordMissing
  | divByZero
  | subUnderflow
  | intoFailure
deriving DecidableEq, Repr

/-- `StakingPool::get_staking` of the alkanes staking_pool crate:
`Staking::descrialize(&data).unwrap()` — panics (errors) instead of
defaulting. -/
def get_staking_alk (s : PoolState) (index : Nat) : Except AlkErr Staking :=
  match s.stakings index with
  | some st => .ok st
  | none => .error .recordMissing

/-- `StakingPool::height_to_no` (alkanes staking_pool):
`(height - MINING_FIRST_HEIGHT) / 144`, the `u64` subtraction truncated. -/
def height_to_no (height : Nat) : Nat :=
  (height - MINING_FIRST_HEIGHT) / 144

/-- The inner `while cross_s < cross_e` loop of `calc_profit_1`: adds `w` to
every per-block slot with index in `[lo, hi)`.  All touched indices are in
bounds in the source (`hi ≤ pre.length` whenever the loop runs), so the
index write is total here. -/
def add_weight_range (pre : List ℚ) (lo hi : Nat) (w : ℚ) : List ℚ :=
  pre.mapIdx fun t x => if lo ≤ t ∧ t < hi then x + w else x

/-- The `for i in 0..count` scan of `calc_profit_1`: accumulates the
weight-blocks product `v` over every position overlapping `[start, endd)`
and fills the per-block weight vector.  `length` is
`max(min(t_e,end)-max(t_s,start), 0)`, whose `u64` subtraction is modelled
as truncated `Nat` subtraction (the `max .. 0` clamp the author wrote is
exactly truncation). -/
def sum_weights_loop (s : PoolState) (height start endd : Nat) :
    Nat → Nat → ℚ → List ℚ → Except AlkErr (ℚ × List ℚ)
  | 0, _, v, pre => .ok (v, pre)
  | fuel + 1, i, v, pre =>
    match get_staking_alk s (i + 1) with
    | .error e => .error e
    | .ok staking =>
      let t_s := height_to_no staking.staking_height
      let t_e := height_to_no (staking.get_mining_end_height height)
      let length := min t_e endd - max t_s start
      if length = 0 then
        sum_weights_loop s height start endd fuel (i + 1) v pre
      else
        let v2 := v + period_to_w staking.period *
          ((staking.staking_value * length : Nat) : ℚ)
        let pre2 := add_weight_range pre (max t_s start - start)
          (min t_e endd - start)
          (period_to_w staking.period * (staking.staking_value : ℚ))
        sum_weights_loop s height start endd fuel (i + 1) v2 pre2

/-- The `pre_v.iter_mut().for_each` pass of `calc_profit_1`: each per-block
weight `x` becomes `curr_staking_w / x * MINING_ONE_DAY_VOLUME`; a zero
entry is the `checked_div(..).unwrap()` panic. -/
def per_block_profit (curr_w day_vol : ℚ) : List ℚ → Except AlkErr (List ℚ)
  | [] => .ok []
  | x :: rest =>
    if x = 0 then .error .divByZero
    else
      match per_block_profit curr_w day_vol rest with
      | .error e => .error e
      | .ok t => .ok (curr_w / x * day_vol :: t)

/-- The released-profit fold of `calc_profit_1`:
`cnt = release_end.checked_sub(i + start + 1).unwrap()` (underflow panics),
then the linear vesting rule with `PROFIT_RELEASE_DAY`. -/
def release_sum (release_end startNo : Nat) (rate : ℚ) :
    List ℚ → Nat → Except AlkErr ℚ
  | [], _ => .ok 0
  | x :: rest, i =>
    if release_end < i + startNo + 1 then .error .subUnderflow
    else
      let cnt := release_end - (i + startNo + 1)
      let r := if PROFIT_RELEASE_DAY ≤ cnt then x else x * rate * (cnt : ℚ)
      match release_sum release_end startNo rate rest (i + 1) with
      | .error e => .error e
      | .ok t => .ok (r + t)

/-- `floor().try_into::<u128>().unwrap()` of the alkanes crate: a negative
floor panics (errors); Decimal's magnitude bound keeps the positive arm
below `u128::MAX`. -/
def decimalToU128Strict (q : ℚ) : Except AlkErr Nat :=
  if ⌊q⌋ < 0 then .error .intoFailure else .ok ⌊q⌋.toNat

/-- `StakingPool::calc_profit_1` (alkanes staking_pool), the reference
calculator: works in 144-block day numbers (`height_to_no`), scans every
position directly, and uses the per-day constants `MINING_ONE_DAY_VOLUME`
and `PROFIT_RELEASE_DAY`.  The total profit is
`c / v * MINING_ONE_DAY_VOLUME * (end - start)` when `v > 0`, else 0. -/
def calc_profit_1 (s : PoolState) (index : Nat) (height : Nat) :
    Except AlkErr (Nat × Nat × Nat) :=
  let count := s.orbitalCount
  match get_staking_alk s index with
  | .error e => .error e
  | .ok curr_staking =>
    let h64 := height % U64_MOD
    let start := height_to_no curr_staking.staking_height
    let endd := height_to_no (curr_staking.get_mining_end_height h64)
    let c : ℚ := (curr_staking.staking_value : ℚ) * ((endd - start : Nat) : ℚ) *
      period_to_w curr_staking.period
    match sum_weights_loop s h64 start endd count 0 0
        (List.replicate (endd - start) 0) with
    | .error e => .error e
    | .ok (v, pre) =>
      let p : ℚ :=
        if 0 < v then
          c / v * (MINING_ONE_DAY_VOLUME : ℚ) * ((endd - start : Nat) : ℚ)
        else 0
      let curr_staking_w : ℚ :=
        (curr_staking.staking_value : ℚ) * period_to_w curr_staking.period
      match per_block_profit curr_staking_w (MINING_ONE_DAY_VOLUME : ℚ) pre with
      | .error e => .error e
      | .ok pre2 =>
        let release_end := height_to_no (curr_staking.get_release_end_height h64)
        let rate : ℚ := 1 / (PROFIT_RELEASE_DAY : ℚ)
        match release_sum release_end start rate pre2 0 with
        | .error e => .error e
        | .ok release_p =>
          match decimalToU128Strict p, decimalToU128Strict release_p with
          | .error e, _ => .error e
          | .ok _, .error e => .error e
          | .ok pN, .ok rN => .ok (pN, rN, curr_staking.withdraw_coin_value)

/-- Little-endian value of a byte list. -/
def leValue : List Nat → Nat
  | [] => 0
  | b :: rest => b + 256 * leValue rest

/-- Consume exactly `n` bytes. -/
def takeBytes (n : Nat) (data : List Nat) : Option (List Nat × List Nat) :=
  if n ≤ data.length then some (data.take n, data.drop n) else none

/-- bincode standard-config decode of a `u8`: one raw byte. -/
def decodeU8 : List Nat → Option (Nat × List Nat)
  | [] => none
  | b :: rest => some (b, rest)

/-- bincode standard-config varint decode for an unsigned integer of bit
width `width`: a first byte below 251 is the value itself; markers 251, 252,
253, 254 announce a little-endian u16/u32/u64/u128 payload, each marker only
legal when the target type is at least that wide; anything else fails. -/
def decodeVarint (width : Nat) (data : List Nat) : Option (Nat × List Nat) :=
  match data with
  | [] => none
  | b :: rest =>
    if b < 251 then some (b, rest)
    else if b = 251 ∧ 16 ≤ width then
      match takeBytes 2 rest with
      | some (bs, r) => some (leValue bs, r)
      | none => none
    else if b = 252 ∧ 32 ≤ width then
      match takeBytes 4 rest with
      | some (bs, r) => some (leValue bs, r)
      | none => none
    else if b = 253 ∧ 64 ≤ width then
      match takeBytes 8 rest with
      | some (bs, r) => some (leValue bs, r)
      | none => none
    else if b = 254 ∧ 128 ≤ width then
      match takeBytes 16 rest with
      | some (bs, r) => some (leValue bs, r)
      | none => none
    else none

/-- `Staking::descrialize` (`decode_from_slice` with bincode
`config::standard()`): the struct's fields in declaration order — `u8` raw,
varint `u128`s, a varint `u16`, the raw 32-byte `tx` array, varint `u64`
heights, the `[u128;2]` as two varints.  Any decode failure is `none`
(the source's `Err`). -/
def descrialize (data : List Nat) : Option Staking := do
  let (brc20_index, d1) ← decodeU8 data
  let (brc20_value, d2) ← decodeVarint 128 d1
  let (staking_value, d3) ← decodeVarint 128 d2
  let (period, d4) ← decodeVarint 16 d3
  let (tx, d5) ← takeBytes 32 d4
  let (invite_index, d6) ← decodeVarint 128 d5
  let (staking_height, d7) ← decodeVarint 64 d6
  let (unstaking_height, d8) ← decodeVarint 64 d7
  let (aid0, d9) ← decodeVarint 128 d8
  let (aid1, d10) ← decodeVarint 128 d9
  let (withdraw_coin_value, _) ← decodeVarint 128 d10
  pure ⟨brc20_index, brc20_value, staking_value, period, tx, invite_index,
    staking_height, unstaking_height, (aid0, aid1), withdraw_coin_value⟩

/-- The single staking position of the repository's `test_get_profit2`
scenario: amount 50000, period 60 (not in the weight table, so base
multiplier 1.0), start height 455. -/
def stk455 : Staking :=
  { brc20_index := 0
    brc20_value := 800000000
    staking_value := 50000
    period := 60
    tx := List.replicate 32 0
    invite_index := 0
    staking_height := 455
    unstaking_height := 0
    alkanes_id := (2, 111128)
    withdraw_coin_value := 0 }

/-- The pool holding exactly that one position, created through
`add_staking_position` on the empty pool. -/
def pool455 : PoolState := add_staking_position emptyPool 1 stk455

/-- A pool whose record at index 1 exists but whose ledger has no snapshot:
`get_staking_weight` is 0 over the position's range. -/
def zeroLedgerPool : PoolState :=
  { emptyPool with stakings := updFun emptyPool.stakings 1 (some stk455) }

/-- A pool whose position counter sits at `u128::MAX`, with index 1 already
occupied. -/
def maxCountPool : PoolState :=
  { emptyPool with
      stakings := updFun emptyPool.stakings 1 (some stk455)
      orbitalCount := U128_MAX }

/-- A pool whose persisted record at index 1 is the malformed byte string
`[1, 2, 3]` (it ends in the middle of the `period` field): the decoded view
of such a store. -/
def badRecordPool : PoolState :=
  { emptyPool with stakings := fun i => if i = 1 then descrialize [1, 2, 3] else none }

/-- A pool whose only position is already marked as unstaking (at height
460). -/
def unstakedPool : PoolState :=
  { emptyPool with
      stakings := updFun emptyPool.stakings 1
        (some { stk455 with unstaking_height := 460 }) }

/-- One block's profit share inside `calc_profit`:
`profit_factor / get_staking_weight(h)`. -/
def block_profit (snap exp : Nat → Option ℚ) (profit_factor : ℚ) (h : Nat) : ℚ :=
  profit_factor / get_staking_weight snap exp h

/-- One block's released (vested) share inside `calc_profit`, under the
linear vesting rule with window `PROFIT_RELEASE_HEIGHT`. -/
def block_released (snap exp : Nat → Option ℚ) (profit_factor release_rate : ℚ)
    (release_end h : Nat) : ℚ :=
  if PROFIT_RELEASE_HEIGHT ≤ release_end - h - 1 then
    block_profit snap exp profit_factor h
  else
    block_profit snap exp profit_factor h * release_rate *
      ((release_end - h - 1 : Nat) : ℚ)

deriving instance DecidableEq for Except

theorem set_invite_weightSnap (s : PoolState) (i j : Nat) :
    (set_invite_relationship s i j).weightSnap = s.weightSnap := by
  unfold set_invite_relationship; split <;> rfl

theorem set_invite_expireW (s : PoolState) (i j : Nat) :
    (set_invite_relationship s i j).expireW = s.expireW := by
  unfold set_invite_relationship; split <;> rfl

theorem set_invite_stakings (s : PoolState) (i j : Nat) :
    (set_invite_relationship s i j).stakings = s.stakings := by
  unfold set_invite_relationship; split <;> rfl

theorem set_invite_orbitalCount (s : PoolState) (i j : Nat) :
    (set_invite_relationship s i j).orbitalCount = s.orbitalCount := by
  unfold set_invite_relationship; split <;> rfl

theorem add_staking_position_weightSnap (s : PoolState) (index : Nat) (stk : Staking) :
    (add_staking_position s index stk).weightSnap
      = updFun s.weightSnap stk.staking_height
          (some (s.weightAt stk.staking_height
            + (stk.staking_value : ℚ) * period_to_weight_multiplier stk.period)) := by
  unfold add_staking_position set_staking_weight set_staking_expire PoolState.weightAt
  simp only [set_invite_weightSnap, set_invite_expireW]

theorem add_staking_position_expireW (s : PoolState) (index : Nat) (stk : Staking) :
    (add_staking_position s index stk).expireW
      = updFun s.expireW stk.get_expire_height
          (some (s.expireAt stk.get_expire_height
            + (stk.staking_value : ℚ) * period_to_weight_multiplier stk.period)) := by
  unfold add_staking_position set_staking_weight set_staking_expire PoolState.expireAt
  simp only [set_invite_weightSnap, set_invite_expireW]

theorem add_staking_position_stakings (s : PoolState) (index : Nat) (stk : Staking) :
    (add_staking_position s index stk).stakings
      = updFun s.stakings index (some stk) := by
  unfold add_staking_position set_staking_weight set_staking_expire
  simp only [set_invite_stakings]

theorem add_staking_position_orbitalCount (s : PoolState) (index : Nat) (stk : Staking) :
    (add_staking_position s index stk).orbitalCount = index := by
  unfold add_staking_position set_staking_weight set_staking_expire
  simp only [set_invite_orbitalCount]

theorem weight_walk_zero (snap exp : Nat → Option ℚ) :
    ∀ current acc,
      (∀ c, c < current → snap c = none ∧ get_staking_expire exp c = 0) →
      weight_walk snap exp current acc = acc := by
  intro current
  induction current with
  | zero => intro acc _; rfl
  | succ n ih =>
    intro acc hz
    simp only [weight_walk]
    split
    · rcases hz n (Nat.lt_succ_self n) with ⟨h1, h2⟩
      simp only [h1, h2, sub_zero]
      exact ih acc fun c hc => hz c (Nat.lt_succ_of_lt hc)
    · rfl

theorem weight_walk_to_snap (snap exp : Nat → Option ℚ) (c0 : Nat) (v : ℚ)
    (hfirst : MINING_FIRST_HEIGHT ≤ c0) (hs : snap c0 = some v) :
    ∀ n acc,
      (∀ c, c0 < c → c < c0 + n + 1 →
        snap c = none ∧ get_staking_expire exp c = 0) →
      weight_walk snap exp (c0 + n + 1) acc = acc + v := by
  intro n
  induction n with
  | zero =>
    intro acc _
    simp only [Nat.add_zero, weight_walk]
    rw [if_pos (by omega)]
    simp only [hs]
  | succ m ih =>
    intro acc hz
    show weight_walk snap exp ((c0 + m + 1) + 1) acc = acc + v
    simp only [weight_walk]
    rw [if_pos (by omega)]
    rcases hz (c0 + m + 1) (by omega) (by omega) with ⟨h1, h2⟩
    simp only [h1, h2, sub_zero]
    exact ih acc fun c hc1 hc2 => hz c hc1 (by omega)

theorem weightAt_all_none (snap exp : Nat → Option ℚ)
    (hsnap : ∀ c, snap c = none) (hexp : ∀ c, get_staking_expire exp c = 0)
    (h : Nat) : get_staking_weight snap exp h = 0 := by
  unfold get_staking_weight
  simp only [hsnap, hexp, sub_zero]
  exact weight_walk_zero snap exp h 0 fun c _ => ⟨hsnap c, hexp c⟩

theorem weightAt_single_event (snap exp : Nat → Option ℚ) (h0 eh : Nat) (w we : ℚ)
    (hfirst : MINING_FIRST_HEIGHT ≤ h0) (hle : h0 ≤ eh)
    (hsnap : ∀ x, snap x = if x = h0 then some w else none)
    (hexp : ∀ x, get_staking_expire exp x = if x = eh then we else 0) :
    (∀ h, h0 ≤ h → h < eh → get_staking_weight snap exp h = w)
      ∧ (∀ h, h < h0 → get_staking_weight snap exp h = 0) := by
  constructor
  · intro h hh0 hhe
    unfold get_staking_weight
    rcases Nat.eq_or_lt_of_le hh0 with heq | hlt
    · rw [hsnap h, if_pos heq.symm]
    · rw [hsnap h, if_neg (by omega)]
      rw [hexp h, if_neg (by omega), sub_zero]
      obtain ⟨n, rfl⟩ : ∃ n, h = h0 + n + 1 := ⟨h - h0 - 1, by omega⟩
      rw [weight_walk_to_snap snap exp h0 w hfirst
        (by rw [hsnap, if_pos rfl]) n 0
        (fun c hc1 hc2 => ⟨by rw [hsnap, if_neg (by omega)],
          by rw [hexp, if_neg (by omega)]⟩), zero_add]
  · intro h hh
    unfold get_staking_weight
    rw [hsnap h, if_neg (by omega)]
    rw [hexp h, if_neg (by omega), sub_zero]
    exact weight_walk_zero snap exp h 0 fun c hc =>
      ⟨by rw [hsnap, if_neg (by omega)], by rw [hexp, if_neg (by omega)]⟩

theorem weightAt_from_snap (snap exp : Nat → Option ℚ) (c0 : Nat) (v : ℚ)
    (hfirst : MINING_FIRST_HEIGHT ≤ c0) (hs : snap c0 = some v)
    (hafter : ∀ x, c0 < x → snap x = none ∧ get_staking_expire exp x = 0) :
    ∀ h, c0 ≤ h → get_staking_weight snap exp h = v := by
  intro h hh
  unfold get_staking_weight
  rcases Nat.eq_or_lt_of_le hh with heq | hlt
  · rw [← heq, hs]
  · rw [(hafter h hlt).1, (hafter h hlt).2, sub_zero]
    obtain ⟨n, rfl⟩ : ∃ n, h = c0 + n + 1 := ⟨h - c0 - 1, by omega⟩
    rw [weight_walk_to_snap snap exp c0 v hfirst hs n 0
      (fun c hc1 _ => hafter c hc1), zero_add]

theorem singleStake_weightSnap (stk : Staking) :
    ∀ x, (add_staking_position emptyPool 1 stk).weightSnap x
      = if x = stk.staking_height then
          some ((stk.staking_value : ℚ) * period_to_weight_multiplier stk.period)
        else none := by
  intro x
  rw [add_staking_position_weightSnap]
  have hW : emptyPool.weightAt stk.staking_height = 0 :=
    weightAt_all_none emptyPool.weightSnap emptyPool.expireW
      (fun _ => rfl) (fun _ => rfl) stk.staking_height
  unfold updFun
  rw [hW, zero_add]
  split <;> rfl

theorem singleStake_expire (stk : Staking) :
    ∀ x, get_staking_expire (add_staking_position emptyPool 1 stk).expireW x
      = if x = stk.get_expire_height then
          (stk.staking_value : ℚ) * period_to_weight_multiplier stk.period
        else 0 := by
  intro x
  rw [add_staking_position_expireW]
  unfold updFun get_staking_expire PoolState.expireAt
  by_cases hx : x = stk.get_expire_height <;>
    simp [hx, emptyPool, get_staking_expire]

/-- Claim C2: immediately after exactly one position with weight
`w = amount * weightOf(period)` is created at height `h0` via
`add_staking_position` on the empty pool (no other ledger events), the
ledger query `get_staking_weight` returns `w` for every height in
`[h0, expiryHeight)` and `0` for every height below `h0`.  The hypothesis
`MINING_FIRST_HEIGHT ≤ h0` is the stake-window validation every created
position passes. -/
theorem weightAt_after_single_stake (stk : Staking)
    (hfirst : MINING_FIRST_HEIGHT ≤ stk.staking_height) :
    (∀ h, stk.staking_height ≤ h → h < stk.get_expire_height →
      (add_staking_position emptyPool 1 stk).weightAt h
        = (stk.staking_value : ℚ) * period_to_weight_multiplier stk.period)
    ∧ (∀ h, h < stk.staking_height →
      (add_staking_position emptyPool 1 stk).weightAt h = 0) := by
  have hle : stk.staking_height ≤ stk.get_expire_height := Nat.le_add_right _ _
  exact weightAt_single_event _ _ _ _ _ _ hfirst hle
    (singleStake_weightSnap stk) (singleStake_expire stk)

/-- Claim C2 witness: the concrete single-position scenario. -/
theorem weightAt_after_single_stake_witness :
    (∀ h, stk455.staking_height ≤ h → h < stk455.get_expire_height →
      (add_staking_position emptyPool 1 stk455).weightAt h
        = (stk455.staking_value : ℚ) * period_to_weight_multiplier stk455.period)
    ∧ (∀ h, h < stk455.staking_height →
      (add_staking_position emptyPool 1 stk455).weightAt h = 0) :=
  weightAt_after_single_stake stk455 (by decide)

theorem process_unstake_ok_maps (s : PoolState) (index H : Nat)
    (h0 : (get_staking s index).unstaking_height = 0)
    (hlt : H < (get_staking s index).get_expire_height) :
    ∃ s2, process_unstake s index H = .ok s2
      ∧ s2.weightSnap = updFun s.weightSnap H
          (some (s.weightAt H - ((get_staking s index).staking_value : ℚ) *
            period_to_weight_multiplier (get_staking s index).period))
      ∧ s2.expireW = updFun s.expireW (get_staking s index).get_expire_height
          (some (s.expireAt (get_staking s index).get_expire_height
            - ((get_staking s index).staking_value : ℚ) *
              period_to_weight_multiplier (get_staking s index).period)) := by
  unfold process_unstake
  rw [if_neg (by omega)]
  rw [if_neg (by simp only [Staking.get_expire_height] at hlt ⊢; omega)]
  exact ⟨_, rfl, rfl, rfl⟩

/-- Claim C3: creating a position on the empty pool and unstaking it at a
height `H` strictly before its expiry removes its weight from the ledger at
every height at or after `H` (the total weight there is 0 again), and the
expire delta stored at the original expiry height becomes its previous
value minus the position's weight. -/
theorem weightAt_after_early_unstake (stk : Staking) (H : Nat)
    (hfirst : MINING_FIRST_HEIGHT ≤ stk.staking_height)
    (hactive : stk.unstaking_height = 0)
    (hH : stk.staking_height ≤ H)
    (hHe : H < stk.get_expire_height) :
    ∃ s2, process_unstake (add_staking_position emptyPool 1 stk) 1 H = .ok s2
      ∧ (∀ h, H ≤ h → s2.weightAt h = 0)
      ∧ s2.expireAt stk.get_expire_height
          = (add_staking_position emptyPool 1 stk).expireAt stk.get_expire_height
            - (stk.staking_value : ℚ) * period_to_weight_multiplier stk.period := by
  have hle : stk.staking_height ≤ stk.get_expire_height := Nat.le_add_right _ _
  have hget : get_staking (add_staking_position emptyPool 1 stk) 1 = stk := by
    unfold get_staking
    rw [add_staking_position_stakings]
    simp [updFun]
  obtain ⟨s2, hrun, hsnapF, hexpF⟩ :=
    process_unstake_ok_maps (add_staking_position emptyPool 1 stk) 1 H
      (by rw [hget]; exact hactive) (by rw [hget]; exact hHe)
  rw [hget] at hsnapF hexpF
  have hsingle := weightAt_single_event
    (add_staking_position emptyPool 1 stk).weightSnap
    (add_staking_position emptyPool 1 stk).expireW
    stk.staking_height stk.get_expire_height
    ((stk.staking_value : ℚ) * period_to_weight_multiplier stk.period)
    ((stk.staking_value : ℚ) * period_to_weight_multiplier stk.period)
    hfirst hle (singleStake_weightSnap stk) (singleStake_expire stk)
  have hWH : (add_staking_position emptyPool 1 stk).weightAt H
      = (stk.staking_value : ℚ) * period_to_weight_multiplier stk.period :=
    hsingle.1 H hH hHe
  refine ⟨s2, hrun, ?_, ?_⟩
  · intro h hh
    have hs : s2.weightSnap H = some 0 := by
      rw [hsnapF]
      unfold updFun
      rw [if_pos rfl, hWH, sub_self]
    have hafter : ∀ x, H < x →
        s2.weightSnap x = none ∧ get_staking_expire s2.expireW x = 0 := by
      intro x hx
      constructor
      · rw [hsnapF]
        unfold updFun
        rw [if_neg (by omega)]
        rw [singleStake_weightSnap stk x, if_neg (by omega)]
      · rw [hexpF]
        simp only [updFun, get_staking_expire]
        by_cases hx2 : x = stk.get_expire_height
        · rw [if_pos hx2]
          show PoolState.expireAt _ _ - _ = 0
          unfold PoolState.expireAt
          rw [singleStake_expire stk _, if_pos rfl, sub_self]
        · rw [if_neg hx2]
          have := singleStake_expire stk x
          unfold get_staking_expire at this
          rw [this, if_neg hx2]
    exact weightAt_from_snap s2.weightSnap s2.expireW H 0
      (le_trans hfirst hH) hs hafter h hh
  · show get_staking_expire s2.expireW _ = _
    rw [hexpF]
    simp [updFun, get_staking_expire]

/-- Claim C3 witness: the concrete position unstaked at height 460, well
before its expiry at 9095. -/
theorem weightAt_after_early_unstake_witness :
    ∃ s2, process_unstake (add_staking_position emptyPool 1 stk455) 1 460 = .ok s2
      ∧ (∀ h, 460 ≤ h → s2.weightAt h = 0)
      ∧ s2.expireAt stk455.get_expire_height
          = (add_staking_position emptyPool 1 stk455).expireAt stk455.get_expire_height
            - (stk455.staking_value : ℚ) * period_to_weight_multiplier stk455.period :=
  weightAt_after_early_unstake stk455 460 (by decide) (by decide) (by decide)
    (by decide)

theorem mining_end_le_release_end (stk : Staking) (q : Nat) :
    stk.get_mining_end_height q ≤ stk.get_release_end_height q := by
  unfold Staking.get_mining_end_height Staking.get_release_end_height
  split <;> omega

theorem mining_end_mono (stk : Staking) {q1 q2 : Nat} (h : q1 ≤ q2) :
    stk.get_mining_end_height q1 ≤ stk.get_mining_end_height q2 := by
  unfold Staking.get_mining_end_height
  split <;> omega

theorem release_end_mono (stk : Staking) {q1 q2 : Nat} (h : q1 ≤ q2) :
    stk.get_release_end_height q1 ≤ stk.get_release_end_height q2 := by
  unfold Staking.get_release_end_height
  split <;> omega

theorem mining_end_le_height (stk : Staking) (q : Nat) :
    stk.get_mining_end_height q ≤ q := by
  unfold Staking.get_mining_end_height
  split <;> omega

/-- Claim C10: for every position and query height, the mining end height
never exceeds the release end height; hence for every block `h` iterated by
`calc_profit` (i.e. `startHeight ≤ h < miningEnd`) the unsigned subtraction
`release_end - h - 1` cannot underflow (`h + 1 ≤ release_end`), and it is 0
only at the last iterated block, which requires `miningEnd = releaseEnd`. -/
theorem no_vesting_subtraction_underflow (stk : Staking) (q h : Nat)
    (_h1 : stk.staking_height ≤ h) (h2 : h < stk.get_mining_end_height q) :
    stk.get_mining_end_height q ≤ stk.get_release_end_height q
    ∧ h + 1 ≤ stk.get_release_end_height q
    ∧ (stk.get_release_end_height q - h - 1 = 0 →
        h + 1 = stk.get_release_end_height q
        ∧ stk.get_mining_end_height q = stk.get_release_end_height q) := by
  have hmr := mining_end_le_release_end stk q
  exact ⟨hmr, by omega, fun hz => ⟨by omega, by omega⟩⟩

/-- Claim C10 witness: the concrete position at query height 468, block 467
(the last iterated block, where the subtraction is exactly 0). -/
theorem no_vesting_subtraction_underflow_witness :
    stk455.get_mining_end_height 468 ≤ stk455.get_release_end_height 468
    ∧ 467 + 1 ≤ stk455.get_release_end_height 468
    ∧ (stk455.get_release_end_height 468 - 467 - 1 = 0 →
        467 + 1 = stk455.get_release_end_height 468
        ∧ stk455.get_mining_end_height 468 = stk455.get_release_end_height 468) :=
  no_vesting_subtraction_underflow stk455 468 467 (by decide) (by decide)

/-- Claim C7: unstaking a position whose `unstaking_height` is already
non-zero fails with `AlreadyUnstaking`, and no successful (state-changing)
outcome exists — the check precedes every write in `process_unstake`, so
the stored position, weight snapshots and expire deltas are untouched. -/
theorem process_unstake_already_unstaking (s : PoolState) (index H : Nat)
    (h : 0 < (get_staking s index).unstaking_height) :
    process_unstake s index H = .error .alreadyUnstaking
    ∧ ∀ s2, process_unstake s index H ≠ .ok s2 := by
  have he : process_unstake s index H = .error .alreadyUnstaking := by
    unfold process_unstake
    rw [if_pos h]
  exact ⟨he, fun s2 hk => by rw [he] at hk; exact Except.noConfusion hk⟩

/-- Claim C7 witness: the pool whose only position is already unstaking. -/
theorem process_unstake_already_unstaking_witness :
    process_unstake unstakedPool 1 470 = .error .alreadyUnstaking
    ∧ ∀ s2, process_unstake unstakedPool 1 470 ≠ .ok s2 :=
  process_unstake_already_unstaking unstakedPool 1 470 (by decide)

theorem profit_loop_err (snap exp : Nat → Option ℚ) (factor rate : ℚ) (rel : Nat)
    (h : Nat) (hz : get_staking_weight snap exp h = 0) :
    ∀ fuel h0 tp tr, h0 ≤ h → h < h0 + fuel →
      profit_loop snap exp factor rate rel fuel h0 tp tr
        = .error .divisionByZero := by
  intro fuel
  induction fuel with
  | zero => intro h0 tp tr hle hlt; omega
  | succ n ih =>
    intro h0 tp tr hle hlt
    simp only [profit_loop]
    split
    · rfl
    · rename_i hw
      have hne : h0 ≠ h := fun e => hw (e ▸ hz)
      exact ih (h0 + 1) _ _ (by omega) (by omega)

/-- Claim C6: if the ledger reports zero total weight at any block height in
the position's iterated range `[start, miningEnd)`, `calc_profit` fails
with the division-by-zero error (the `rust_decimal` division panic, which
aborts the invocation and is the only failure the calculator has). -/
theorem calc_profit_zero_weight_error (s : PoolState) (index q h : Nat)
    (hq : q < U64_MOD)
    (h1 : (get_staking s index).staking_height ≤ h)
    (h2 : h < (get_staking s index).get_mining_end_height q)
    (h3 : s.weightAt h = 0) :
    calc_profit s index q = .error .divisionByZero := by
  simp only [calc_profit, Nat.mod_eq_of_lt hq]
  rw [profit_loop_err s.weightSnap s.expireW _ _ _ h h3 _
    (get_staking s index).staking_height 0 0 h1 (by omega)]

/-- Claim C6 witness: a position exists but the ledger holds no snapshot, so
the weight at its start height is 0 and the profit query aborts with the
division error. -/
theorem calc_profit_zero_weight_error_witness :
    calc_profit zeroLedgerPool 1 468 = .error .divisionByZero :=
  calc_profit_zero_weight_error zeroLedgerPool 1 468 455 (by decide) (by decide)
    (by decide)
    (weightAt_all_none zeroLedgerPool.weightSnap zeroLedgerPool.expireW
      (fun _ => rfl) (fun _ => rfl) 455)

theorem profit_loop_ok (snap exp : Nat → Option ℚ) (factor rate : ℚ) (rel : Nat) :
    ∀ fuel h tp tr,
      (∀ k, h ≤ k → k < h + fuel → get_staking_weight snap exp k ≠ 0) →
      profit_loop snap exp factor rate rel fuel h tp tr
        = .ok (tp + ∑ k ∈ Finset.Ico h (h + fuel), block_profit snap exp factor k,
               tr + ∑ k ∈ Finset.Ico h (h + fuel),
                 block_released snap exp factor rate rel k) := by
  intro fuel
  induction fuel with
  | zero =>
    intro h tp tr _
    simp [profit_loop]
  | succ n ih =>
    intro h tp tr hwz
    have hw0 : get_staking_weight snap exp h ≠ 0 := hwz h le_rfl (by omega)
    simp only [profit_loop]
    rw [if_neg hw0]
    rw [ih (h + 1) _ _ fun k hk1 hk2 => hwz k (by omega) (by omega)]
    have hlt : h < h + (n + 1) := by omega
    have h1n : h + 1 + n = h + (n + 1) := by omega
    rw [h1n, Finset.sum_eq_sum_Ico_succ_bot hlt, Finset.sum_eq_sum_Ico_succ_bot hlt]
    simp only [block_profit, block_released]
    refine congrArg Except.ok (Prod.ext ?_ ?_) <;> dsimp only <;> ring

theorem calc_profit_ok (s : PoolState) (index q : Nat) (hq : q < U64_MOD)
    (hw : ∀ k, (get_staking s index).staking_height ≤ k →
      k < (get_staking s index).get_mining_end_height q → s.weightAt k ≠ 0) :
    calc_profit s index q = .ok
      (decimalToU128 (∑ k ∈ Finset.Ico (get_staking s index).staking_height
          ((get_staking s index).get_mining_end_height q),
          block_profit s.weightSnap s.expireW
            (((get_staking s index).staking_value : ℚ) *
              period_to_weight_multiplier (get_staking s index).period *
              (MINING_ONE_BLOCK_VOLUME : ℚ)) k),
       decimalToU128 (∑ k ∈ Finset.Ico (get_staking s index).staking_height
          ((get_staking s index).get_mining_end_height q),
          block_released s.weightSnap s.expireW
            (((get_staking s index).staking_value : ℚ) *
              period_to_weight_multiplier (get_staking s index).period *
              (MINING_ONE_BLOCK_VOLUME : ℚ))
            (1 / (PROFIT_RELEASE_HEIGHT : ℚ))
            ((get_staking s index).get_release_end_height q) k),
       (get_staking s index).withdraw_coin_value) := by
  simp only [calc_profit, Nat.mod_eq_of_lt hq]
  rw [profit_loop_ok s.weightSnap s.expireW _ _ _ _
    (get_staking s index).staking_height 0 0 (fun k hk1 hk2 => hw k hk1 (by omega))]
  rcases Nat.le_total (get_staking s index).staking_height
      ((get_staking s index).get_mining_end_height q) with hse | hes
  · rw [Nat.add_sub_cancel' hse]
    simp
  · have h0 : (get_staking s index).get_mining_end_height q
        - (get_staking s index).staking_height = 0 := by omega
    rw [h0]
    rw [Finset.Ico_eq_empty (by omega), Finset.Ico_eq_empty (by omega)]
    simp

theorem period_to_weight_multiplier_pos (p : Nat) :
    0 < period_to_weight_multiplier p := by
  unfold period_to_weight_multiplier
  split_ifs <;> norm_num

theorem block_profit_nonneg (snap exp : Nat → Option ℚ) (factor : ℚ) (h : Nat)
    (hf : 0 ≤ factor) (hw : 0 < get_staking_weight snap exp h) :
    0 ≤ block_profit snap exp factor h :=
  div_nonneg hf hw.le

theorem release_height_cast_ne : ((PROFIT_RELEASE_HEIGHT : Nat) : ℚ) ≠ 0 := by
  norm_num [PROFIT_RELEASE_HEIGHT]

theorem block_released_nonneg (snap exp : Nat → Option ℚ) (factor : ℚ)
    (rel h : Nat) (hp : 0 ≤ block_profit snap exp factor h) :
    0 ≤ block_released snap exp factor (1 / (PROFIT_RELEASE_HEIGHT : ℚ)) rel h := by
  unfold block_released
  split
  · exact hp
  · have : (0 : ℚ) ≤ 1 / (PROFIT_RELEASE_HEIGHT : ℚ) := by positivity
    exact mul_nonneg (mul_nonneg hp this) (Nat.cast_nonneg _)

theorem block_released_mono (snap exp : Nat → Option ℚ) (factor : ℚ)
    (rel1 rel2 h : Nat) (hp : 0 ≤ block_profit snap exp factor h)
    (hrel : rel1 ≤ rel2) :
    block_released snap exp factor (1 / (PROFIT_RELEASE_HEIGHT : ℚ)) rel1 h
      ≤ block_released snap exp factor (1 / (PROFIT_RELEASE_HEIGHT : ℚ)) rel2 h := by
  unfold block_released
  have hc : rel1 - h - 1 ≤ rel2 - h - 1 := by omega
  have hratenn : (0 : ℚ) ≤ 1 / (PROFIT_RELEASE_HEIGHT : ℚ) := by positivity
  by_cases h1 : PROFIT_RELEASE_HEIGHT ≤ rel1 - h - 1
  · rw [if_pos h1, if_pos (by omega)]
  · rw [if_neg h1]
    by_cases h2 : PROFIT_RELEASE_HEIGHT ≤ rel2 - h - 1
    · rw [if_pos h2]
      have hle : ((rel1 - h - 1 : Nat) : ℚ) ≤ ((PROFIT_RELEASE_HEIGHT : Nat) : ℚ) := by
        exact_mod_cast Nat.le_of_lt (Nat.lt_of_not_le h1)
      calc block_profit snap exp factor h * (1 / (PROFIT_RELEASE_HEIGHT : ℚ)) *
            ((rel1 - h - 1 : Nat) : ℚ)
          ≤ block_profit snap exp factor h * (1 / (PROFIT_RELEASE_HEIGHT : ℚ)) *
            ((PROFIT_RELEASE_HEIGHT : Nat) : ℚ) :=
            mul_le_mul_of_nonneg_left hle (mul_nonneg hp hratenn)
        _ = block_profit snap exp factor h := by
            rw [mul_assoc, one_div, inv_mul_cancel₀ release_height_cast_ne, mul_one]
    · rw [if_neg h2]
      exact mul_le_mul_of_nonneg_left (by exact_mod_cast hc) (mul_nonneg hp hratenn)

/-- Claim C5: for a fixed position, ledger and withdrawn amount, the
claimable quantity `released.saturating_sub(withdrawn)` computed from
`calc_profit` is monotone non-decreasing in the query height (whenever the
ledger weight is positive over the larger mining range, which is what makes
both computations succeed), and is 0 for every query height at or below the
position's start height. -/
theorem claimable_monotone_and_zero (s : PoolState) (index q1 q2 : Nat)
    (hq12 : q1 ≤ q2) (hq2 : q2 < U64_MOD)
    (hw : ∀ k, k < (get_staking s index).get_mining_end_height q2 →
      (get_staking s index).staking_height ≤ k → 0 < s.weightAt k) :
    (∃ p1 r1 p2 r2,
      calc_profit s index q1
        = .ok (p1, r1, (get_staking s index).withdraw_coin_value)
      ∧ calc_profit s index q2
        = .ok (p2, r2, (get_staking s index).withdraw_coin_value)
      ∧ r1 - (get_staking s index).withdraw_coin_value
          ≤ r2 - (get_staking s index).withdraw_coin_value)
    ∧ (∀ q, q ≤ (get_staking s index).staking_height →
        calc_profit s index q
          = .ok (0, 0, (get_staking s index).withdraw_coin_value)) := by
  have hq1 : q1 < U64_MOD := lt_of_le_of_lt hq12 hq2
  have hend : (get_staking s index).get_mining_end_height q1
      ≤ (get_staking s index).get_mining_end_height q2 :=
    mining_end_mono _ hq12
  have hrel : (get_staking s index).get_release_end_height q1
      ≤ (get_staking s index).get_release_end_height q2 :=
    release_end_mono _ hq12
  have hw2 : ∀ k, (get_staking s index).staking_height ≤ k →
      k < (get_staking s index).get_mining_end_height q2 → s.weightAt k ≠ 0 :=
    fun k hk1 hk2 => ne_of_gt (hw k hk2 hk1)
  have hw1 : ∀ k, (get_staking s index).staking_height ≤ k →
      k < (get_staking s index).get_mining_end_height q1 → s.weightAt k ≠ 0 :=
    fun k hk1 hk2 => hw2 k hk1 (lt_of_lt_of_le hk2 hend)
  have hfac : (0 : ℚ) ≤ ((get_staking s index).staking_value : ℚ) *
      period_to_weight_multiplier (get_staking s index).period *
      (MINING_ONE_BLOCK_VOLUME : ℚ) :=
    mul_nonneg (mul_nonneg (Nat.cast_nonneg _)
      (period_to_weight_multiplier_pos _).le) (Nat.cast_nonneg _)
  have hpnn : ∀ k ∈ Finset.Ico (get_staking s index).staking_height
      ((get_staking s index).get_mining_end_height q2),
      0 ≤ block_profit s.weightSnap s.expireW
        (((get_staking s index).staking_value : ℚ) *
          period_to_weight_multiplier (get_staking s index).period *
          (MINING_ONE_BLOCK_VOLUME : ℚ)) k := by
    intro k hk
    rcases Finset.mem_Ico.mp hk with ⟨hk1, hk2⟩
    exact block_profit_nonneg _ _ _ _ hfac (hw k hk2 hk1)
  constructor
  · refine ⟨_, _, _, _, calc_profit_ok s index q1 hq1 hw1,
      calc_profit_ok s index q2 hq2 hw2, ?_⟩
    apply Nat.sub_le_sub_right
    unfold decimalToU128
    apply Int.toNat_le_toNat
    apply Int.floor_mono
    calc ∑ k ∈ Finset.Ico (get_staking s index).staking_height
          ((get_staking s index).get_mining_end_height q1),
          block_released s.weightSnap s.expireW _ (1 / (PROFIT_RELEASE_HEIGHT : ℚ))
            ((get_staking s index).get_release_end_height q1) k
        ≤ ∑ k ∈ Finset.Ico (get_staking s index).staking_height
          ((get_staking s index).get_mining_end_height q1),
          block_released s.weightSnap s.expireW _ (1 / (PROFIT_RELEASE_HEIGHT : ℚ))
            ((get_staking s index).get_release_end_height q2) k := by
          apply Finset.sum_le_sum
          intro k hk
          exact block_released_mono _ _ _ _ _ _
            (hpnn k (Finset.mem_Ico.mpr
              ⟨(Finset.mem_Ico.mp hk).1,
               lt_of_lt_of_le (Finset.mem_Ico.mp hk).2 hend⟩)) hrel
      _ ≤ ∑ k ∈ Finset.Ico (get_staking s index).staking_height
          ((get_staking s index).get_mining_end_height q2),
          block_released s.weightSnap s.expireW _ (1 / (PROFIT_RELEASE_HEIGHT : ℚ))
            ((get_staking s index).get_release_end_height q2) k := by
          apply Finset.sum_le_sum_of_subset_of_nonneg
            (Finset.Ico_subset_Ico le_rfl hend)
          intro k hk _
          exact block_released_nonneg _ _ _ _ _ (hpnn k hk)
  · intro q hqs
    have hend0 : (get_staking s index).get_mining_end_height (q % U64_MOD)
        ≤ (get_staking s index).staking_height :=
      le_trans (mining_end_le_height _ _) (le_trans (Nat.mod_le _ _) hqs)
    simp only [calc_profit]
    have hfuel : (get_staking s index).get_mining_end_height (q % U64_MOD)
        - (get_staking s index).staking_height = 0 := by omega
    rw [hfuel]
    simp [profit_loop, decimalToU128]

theorem get_staking_alk_ok {s : PoolState} {index : Nat} {curr : Staking}
    (h : get_staking_alk s index = .ok curr) : get_staking s index = curr := by
  unfold get_staking_alk at h
  unfold get_staking
  cases hs : s.stakings index with
  | none => rw [hs] at h; exact Except.noConfusion h
  | some st =>
    rw [hs] at h
    simp only [Except.ok.injEq] at h
    simp [h]

theorem calc_profit_third (s : PoolState) (index q : Nat) (t : Nat × Nat × Nat)
    (h : calc_profit s index q = .ok t) :
    t.2.2 = (get_staking s index).withdraw_coin_value := by
  simp only [calc_profit] at h
  cases hl : profit_loop s.weightSnap s.expireW
      (((get_staking s index).staking_value : ℚ) *
        period_to_weight_multiplier (get_staking s index).period *
        (MINING_ONE_BLOCK_VOLUME : ℚ))
      (1 / (PROFIT_RELEASE_HEIGHT : ℚ))
      ((get_staking s index).get_release_end_height (q % U64_MOD))
      ((get_staking s index).get_mining_end_height (q % U64_MOD)
        - (get_staking s index).staking_height)
      (get_staking s index).staking_height 0 0 with
  | error e => rw [hl] at h; exact Except.noConfusion h
  | ok pr =>
    rw [hl] at h
    simp only [Except.ok.injEq] at h
    rw [← h]

/-- Claim C1 amended: whenever both the incremental calculator
`calc_profit` (forge-stake, per block) and the reference calculator
`calc_profit_1` (alkanes staking_pool, per 144-block day) succeed on the
same position store, they agree on the `withdrawn` component of the triple;
the `accrued` and `vested` components differ in general because the two
functions account in different units with different emission constants. -/
theorem calc_profit_reference_withdrawn_agree (s : PoolState) (index q : Nat)
    (t1 t2 : Nat × Nat × Nat)
    (h1 : calc_profit s index q = .ok t1)
    (h2 : calc_profit_1 s index q = .ok t2) :
    t1.2.2 = t2.2.2 := by
  rw [calc_profit_third s index q t1 h1]
  simp only [calc_profit_1] at h2
  cases hga : get_staking_alk s index with
  | error e => rw [hga] at h2; exact Except.noConfusion h2
  | ok curr =>
    rw [hga] at h2
    rw [get_staking_alk_ok hga]
    simp only at h2
    split at h2
    · exact Except.noConfusion h2
    · rename_i vpre hsum
      split at h2
      · exact Except.noConfusion h2
      · rename_i pre2 hmap
        split at h2
        · exact Except.noConfusion h2
        · rename_i relp hrel
          split at h2
          · exact Except.noConfusion h2
          · exact Except.noConfusion h2
          · rename_i pN rN hp hr
            simp only [Except.ok.injEq] at h2
            rw [← h2]

/-- Claim C8 amended: while the position counter stays below `u128::MAX`,
each successful stake is assigned index `count + 1` and two successive
stakes receive distinct indices; at `u128::MAX` the counter wraps to index
1 (`checked_add(1).unwrap_or(1)`) instead of failing. -/
theorem staking_indices_increment_distinct (s : PoolState) (stk : Staking)
    (hc : s.orbitalCount + 2 ≤ U128_MAX) :
    get_next_staking_index s = s.orbitalCount + 1
    ∧ get_next_staking_index (add_staking_position s (s.orbitalCount + 1) stk)
        = s.orbitalCount + 2
    ∧ s.orbitalCount + 1 ≠ s.orbitalCount + 2 := by
  refine ⟨?_, ?_, by omega⟩
  · unfold get_next_staking_index
    rw [if_pos (by omega)]
  · unfold get_next_staking_index
    rw [add_staking_position_orbitalCount]
    rw [if_pos (by omega)]

/-- Claim C8 counterexample: with the position counter at `u128::MAX` (and
index 1 occupied), `get_next_staking_index` returns 1 — a wrap-around that
reuses an existing index — rather than `count + 1` or an
`ArithmeticOverflow` failure. -/
theorem get_next_staking_index_overflow_wraps :
    get_next_staking_index maxCountPool = 1
    ∧ maxCountPool.orbitalCount + 1 ≠ 1
    ∧ (maxCountPool.stakings 1).isSome = true := by
  refine ⟨by decide, by decide, by decide⟩

/-- Claim C8 amended witness: the empty pool assigns indices 1 then 2. -/
theorem staking_indices_increment_distinct_witness :
    get_next_staking_index emptyPool = emptyPool.orbitalCount + 1
    ∧ get_next_staking_index
        (add_staking_position emptyPool (emptyPool.orbitalCount + 1) stk455)
        = emptyPool.orbitalCount + 2
    ∧ emptyPool.orbitalCount + 1 ≠ emptyPool.orbitalCount + 2 :=
  staking_indices_increment_distinct emptyPool stk455 (by decide)

/-- Claim C9 amended: a persisted position record that fails to deserialize
is read back as the default (all-zero) `Staking` by forge-stake's
`get_staking` (`unwrap_or_default`), and the profit query then succeeds with
`(0, 0, 0)` instead of failing with `SerializationError`. -/
theorem malformed_record_defaults_and_succeeds (s : PoolState) (index q : Nat)
    (b : List Nat) (hb : descrialize b = none)
    (hs : s.stakings index = descrialize b) :
    get_staking s index = Staking.default
    ∧ calc_profit s index q = .ok (0, 0, 0) := by
  have hnone : s.stakings index = none := by rw [hs, hb]
  have hget : get_staking s index = Staking.default := by
    unfold get_staking
    rw [hnone]
    rfl
  refine ⟨hget, ?_⟩
  simp only [calc_profit, hget]
  have hme : Staking.default.get_mining_end_height (q % U64_MOD) = 0 := by
    simp [Staking.get_mining_end_height, Staking.default, Staking.get_expire_height]
  rw [hme]
  simp [profit_loop, decimalToU128, Staking.default]

section

attribute [local semireducible] Rat.add Rat.mul Rat.sub Rat.inv

/-- Claim C1 counterexample: on the single-position pool of the repository's
own test scenario, the incremental calculator `calc_profit` (forge-stake)
returns 13 blocks of per-block emission while the reference calculator
`calc_profit_1` (alkanes staking_pool) returns `(0, 0, 0)` — its day-number
range `[(455-450)/144, (468-450)/144) = [0, 0)` is empty — so the two do
not return the same triple for this valid `(index, height)` pair. -/
theorem calc_profit_vs_reference_differ :
    calc_profit pool455 1 468 = .ok (13040123456789, 3018547096, 0)
    ∧ calc_profit_1 pool455 1 468 = .ok (0, 0, 0)
    ∧ ((13040123456789, 3018547096, 0) : Nat × Nat × Nat) ≠ (0, 0, 0) := by
  refine ⟨by decide, by decide, by decide⟩

/-- Claim C1 amended witness: both calculators succeed on the concrete pool
and their withdrawn components agree. -/
theorem calc_profit_reference_withdrawn_agree_witness :
    ((13040123456789, 3018547096, 0) : Nat × Nat × Nat).2.2
      = ((0, 0, 0) : Nat × Nat × Nat).2.2 :=
  calc_profit_reference_withdrawn_agree pool455 1 468 _ _ (by decide) (by decide)

/-- Claim C4: with the single position `amount = 50000`, `period = 60`
(base multiplier 1.0), `startHeight = 455` created through
`add_staking_position`, `calc_profit(index, 468)` reports accrued profit of
exactly `13 * MINING_ONE_BLOCK_VOLUME` — 13 blocks, each contributing one
full per-block emission because the pool weight at each block equals the
position's own weight. -/
theorem calc_profit_concrete_scenario :
    calc_profit pool455 1 468 = .ok (13 * MINING_ONE_BLOCK_VOLUME, 3018547096, 0) := by
  decide

set_option maxRecDepth 100000 in
/-- Claim C5 witness: the concrete pool, query heights 460 ≤ 468. -/
theorem claimable_monotone_and_zero_witness :
    (∃ p1 r1 p2 r2,
      calc_profit pool455 1 460
        = .ok (p1, r1, (get_staking pool455 1).withdraw_coin_value)
      ∧ calc_profit pool455 1 468
        = .ok (p2, r2, (get_staking pool455 1).withdraw_coin_value)
      ∧ r1 - (get_staking pool455 1).withdraw_coin_value
          ≤ r2 - (get_staking pool455 1).withdraw_coin_value)
    ∧ (∀ q, q ≤ (get_staking pool455 1).staking_height →
        calc_profit pool455 1 q
          = .ok (0, 0, (get_staking pool455 1).withdraw_coin_value)) :=
  claimable_monotone_and_zero pool455 1 460 468 (by decide) (by decide) (by decide)

/-- Claim C9 counterexample: with the malformed persisted record
`[1, 2, 3]` at index 1, deserialization fails, forge-stake's `get_staking`
silently yields the default record, the profit query succeeds with
`(0, 0, 0)`, and the unstake operation also proceeds successfully — no
`SerializationError` reaches the caller. -/
theorem malformed_record_silently_defaults :
    descrialize [1, 2, 3] = none
    ∧ get_staking badRecordPool 1 = Staking.default
    ∧ calc_profit badRecordPool 1 468 = .ok (0, 0, 0)
    ∧ (process_unstake badRecordPool 1 470).isOk = true := by
  refine ⟨by decide, by decide, by decide, by decide⟩

/-- Claim C9 amended witness. -/
theorem malformed_record_defaults_and_succeeds_witness :
    get_staking badRecordPool 1 = Staking.default
    ∧ calc_profit badRecordPool 1 468 = .ok (0, 0, 0) :=
  malformed_record_defaults_and_succeeds badRecordPool 1 468 [1, 2, 3]
    (by decide) (by decide)

end

end ForgeStake
